import Mathlib

/-!
Verification of the `TransformVisitor` AST rewrite pass (src/src/lib.rs).

The pass is an swc `VisitMut` visitor that walks a parsed program and rewrites
calls whose callee is the bare identifier `includeBytes` into calls of
`env.latin1_string_to_uint8array`, replacing the first string-literal argument
with the text of the file obtained by joining the build context's working
directory with that literal.

Shallow embedding notes:
* The AST is the fragment of the swc `Expr` tree that the pass can observe:
  identifiers, literals, member expressions (with identifier or computed
  property) and call expressions whose arguments are (spread?, expr) pairs.
* The visitor struct `TransformVisitor { is_include_bytes, cwd, filename }`
  is embedded by threading its one mutable field (the marker flag, called
  `isIncludeBytes` below) through the traversal; `cwd` is immutable for the
  pass's lifetime and is a plain parameter (`filename` is dead code in the
  source and is omitted).
* `panic!` aborts are embedded as an error field in the traversal result.
  Because the Rust code mutates the tree in place before some of the panics
  fire, the result also carries the tree as it stood when the abort happened;
  the external entry point `transformProgram` discards that partial tree and
  returns `Except.error`, which is what the host observes.
* The file system (`Path::exists`, `fs::read_to_string`) is a parameter
  `FSys`; `Path::join` is embedded as `joinPath` following Rust's documented
  `Path::join`/`push` semantics (an absolute argument replaces the base).
* The traversal order follows swc's generated `VisitMutWith` instances: a
  call's children are its callee (via `visit_mut_callee`, which this visitor
  overrides WITHOUT delegating to the generic descent, so the callee's own
  subtree is never recursed into) followed by its arguments left to right;
  `visit_mut_expr` first visits children, then runs the lines 50-93 hook.
-/

/-- Literals, the fragment of swc `Lit` the pass distinguishes:
`Lit::Str` is matched at line 73, everything else is "not a string". -/
inductive Lit where
  | str (value : String)
  | num (value : Int)
  | boolean (value : Bool)
deriving Repr

/-- The expression fragment of the swc AST visible to the pass.
Call arguments are `(spread?, expr)` pairs mirroring `ExprOrSpread`. -/
inductive Expr where
  | ident (sym : String)
  | lit (l : Lit)
  | member (obj : Expr) (prop : String)
  | computedMember (obj : Expr) (prop : Expr)
  | call (callee : Expr) (args : List (Bool × Expr))
deriving Repr

/-- Statements: an expression statement or a variable declaration with an
initializer (`const s = ...`), the forms used by the plugin's own test. -/
inductive Stmt where
  | exprStmt (e : Expr)
  | varDecl (name : String) (init : Expr)
deriving Repr

/-- The five `panic!` sites of `visit_mut_expr` (lines 69-89), named by the
spec's error taxonomy (section 7). -/
inductive TransformError where
  | missingArgument
  | invalidArgumentType
  | missingCwd
  | fileNotFound
  | readFailure
deriving Repr, DecidableEq

/-- The file system as seen by the pass: `Path::exists` (line 83) and
`fs::read_to_string` (line 87, `none` = read or decode failure). -/
structure FSys where
  pathExists : String → Bool
  readToString : String → Option String

/-- Embedding of Rust `Path::new(cwd).join(path)` (line 81): if the argument
is absolute it replaces the base, otherwise it is appended after a
separator (Unix/wasm path semantics, as documented for `Path::push`). -/
def joinPath (base p : String) : String :=
  if p.data.head? = some '/' then p
  else if base.data.getLast? = some '/' ∨ base = "" then base ++ p
  else base ++ "/" ++ p

/-- The marker name the pass looks for (line 40). -/
def markerName : String := "includeBytes"

/-- The callee installed by the rewrite (lines 58-67):
the member expression `env.latin1_string_to_uint8array`. -/
def rewrittenCallee : Expr :=
  Expr.member (Expr.ident "env") "latin1_string_to_uint8array"

/-- `visit_mut_callee` (lines 37-45): if the callee is the bare identifier
`includeBytes`, set the flag; any other shape leaves the flag untouched.
The override does not delegate to the generic descent, so this is the only
processing the callee position receives. -/
def visitMutCallee (isIncludeBytes : Bool) (callee : Expr) : Bool :=
  match callee with
  | Expr.ident sym => if sym == markerName then true else isIncludeBytes
  | _ => isIncludeBytes

/-- Result of visiting one expression: the (possibly partially) mutated node,
the flag state, the panic that aborted the walk (if any), and how many times
the substitution branch (the code after the guards at lines 50-56) ran. -/
structure VisitResult where
  expr : Expr
  isIncludeBytes : Bool
  err : Option TransformError
  cnt : Nat
deriving Repr

/-- Result of visiting an argument list (`ExprOrSpread` sequence). -/
structure ArgsResult where
  args : List (Bool × Expr)
  isIncludeBytes : Bool
  err : Option TransformError
  cnt : Nat
deriving Repr

/-- Lines 58-93 of `visit_mut_expr`: the substitution performed on a call
while the flag is set.  The callee is unconditionally replaced by
`env.latin1_string_to_uint8array` (lines 58-67) first; then the argument,
working-directory, existence and read checks run in order, each panicking
with its own kind; on success the first argument's string value is replaced
by the file contents and the flag is cleared (lines 91-93; on every panic
path the flag is still `true`, since line 93 is never reached).  Returns the
call as mutated so far, the flag, and the panic if one fired. -/
def substituteCall (fs : FSys) (cwd : Option String)
    (args : List (Bool × Expr)) : Expr × Bool × Option TransformError :=
  match args with
  | [] =>
    (Expr.call rewrittenCallee [], true, some TransformError.missingArgument)
  | (s, first) :: rest =>
    match first with
    | Expr.lit (Lit.str p) =>
      match cwd with
      | none =>
        (Expr.call rewrittenCallee ((s, first) :: rest), true,
          some TransformError.missingCwd)
      | some w =>
        if fs.pathExists (joinPath w p) then
          match fs.readToString (joinPath w p) with
          | some contents =>
            (Expr.call rewrittenCallee
                ((s, Expr.lit (Lit.str contents)) :: rest),
              false, none)
          | none =>
            (Expr.call rewrittenCallee ((s, first) :: rest), true,
              some TransformError.readFailure)
        else
          (Expr.call rewrittenCallee ((s, first) :: rest), true,
            some TransformError.fileNotFound)
    | _ =>
      (Expr.call rewrittenCallee ((s, first) :: rest), true,
        some TransformError.invalidArgumentType)

/-- Lines 47-56 dispatch around the substitution: run `substituteCall` only
when the flag is set and the node is a call; `cnt` records whether the
substitution branch ran. -/
def exprPostHook (fs : FSys) (cwd : Option String) (isIncludeBytes : Bool)
    (e : Expr) : VisitResult :=
  if isIncludeBytes then
    match e with
    | Expr.call _ args =>
      let t := substituteCall fs cwd args
      ⟨t.1, t.2.1, t.2.2, 1⟩
    | _ => ⟨e, isIncludeBytes, none, 0⟩
  else ⟨e, isIncludeBytes, none, 0⟩

mutual

/-- `visit_mut_expr` (lines 47-94): visit the node's children (for a call:
`visit_mut_callee` on the callee, then the arguments; the callee subtree is
not recursed into), then run `exprPostHook`.  A panic in a child stops the
walk immediately and is propagated together with the tree as mutated so far. -/
def visitMutExpr (fs : FSys) (cwd : Option String) (e : Expr)
    (isIncludeBytes : Bool) : VisitResult :=
  match e with
  | Expr.ident s => exprPostHook fs cwd isIncludeBytes (Expr.ident s)
  | Expr.lit l => exprPostHook fs cwd isIncludeBytes (Expr.lit l)
  | Expr.member obj prop =>
    let r := visitMutExpr fs cwd obj isIncludeBytes
    match r.err with
    | some _ => ⟨Expr.member r.expr prop, r.isIncludeBytes, r.err, r.cnt⟩
    | none =>
      let h := exprPostHook fs cwd r.isIncludeBytes (Expr.member r.expr prop)
      ⟨h.expr, h.isIncludeBytes, h.err, r.cnt + h.cnt⟩
  | Expr.computedMember obj prop =>
    let r1 := visitMutExpr fs cwd obj isIncludeBytes
    match r1.err with
    | some _ =>
      ⟨Expr.computedMember r1.expr prop, r1.isIncludeBytes, r1.err, r1.cnt⟩
    | none =>
      let r2 := visitMutExpr fs cwd prop r1.isIncludeBytes
      match r2.err with
      | some _ =>
        ⟨Expr.computedMember r1.expr r2.expr, r2.isIncludeBytes, r2.err,
          r1.cnt + r2.cnt⟩
      | none =>
        let h := exprPostHook fs cwd r2.isIncludeBytes
          (Expr.computedMember r1.expr r2.expr)
        ⟨h.expr, h.isIncludeBytes, h.err, r1.cnt + r2.cnt + h.cnt⟩
  | Expr.call c args =>
    let f1 := visitMutCallee isIncludeBytes c
    let ra := visitArgs fs cwd args f1
    match ra.err with
    | some _ => ⟨Expr.call c ra.args, ra.isIncludeBytes, ra.err, ra.cnt⟩
    | none =>
      let h := exprPostHook fs cwd ra.isIncludeBytes (Expr.call c ra.args)
      ⟨h.expr, h.isIncludeBytes, h.err, ra.cnt + h.cnt⟩
termination_by structural e

/-- Visiting an argument list left to right (swc visits `ExprOrSpread`
elements in order, running `visit_mut_expr` on each element's expression). -/
def visitArgs (fs : FSys) (cwd : Option String) (args : List (Bool × Expr))
    (isIncludeBytes : Bool) : ArgsResult :=
  match args with
  | [] => ⟨[], isIncludeBytes, none, 0⟩
  | (s, e) :: rest =>
    let r := visitMutExpr fs cwd e isIncludeBytes
    match r.err with
    | some _ => ⟨(s, r.expr) :: rest, r.isIncludeBytes, r.err, r.cnt⟩
    | none =>
      let rr := visitArgs fs cwd rest r.isIncludeBytes
      ⟨(s, r.expr) :: rr.args, rr.isIncludeBytes, rr.err, r.cnt + rr.cnt⟩
termination_by structural args

end

/-- Result of visiting a statement list. -/
structure StmtsResult where
  stmts : List Stmt
  isIncludeBytes : Bool
  err : Option TransformError
  cnt : Nat
deriving Repr

/-- Visiting the statements of a program in order with one visitor instance;
the flag carries over from one statement to the next (it is a field of the
visitor, not reset between statements). -/
def visitStmts (fs : FSys) (cwd : Option String) (stmts : List Stmt)
    (isIncludeBytes : Bool) : StmtsResult :=
  match stmts with
  | [] => ⟨[], isIncludeBytes, none, 0⟩
  | s :: rest =>
    let p :=
      match s with
      | Stmt.exprStmt e =>
        let r := visitMutExpr fs cwd e isIncludeBytes
        (Stmt.exprStmt r.expr, r)
      | Stmt.varDecl n e =>
        let r := visitMutExpr fs cwd e isIncludeBytes
        (Stmt.varDecl n r.expr, r)
    match p.2.err with
    | some _ => ⟨p.1 :: rest, p.2.isIncludeBytes, p.2.err, p.2.cnt⟩
    | none =>
      let rr := visitStmts fs cwd rest p.2.isIncludeBytes
      ⟨p.1 :: rr.stmts, rr.isIncludeBytes, rr.err, p.2.cnt + rr.cnt⟩

/-- The external entry point (`process_transform` line 113 composed with the
folder): run one freshly constructed visitor (flag initially `false`, line 25)
over the whole program; a panic anywhere is observed by the host as failure of
the whole transform, otherwise the mutated program is returned. -/
def transformProgram (fs : FSys) (cwd : Option String) (prog : List Stmt) :
    Except TransformError (List Stmt) :=
  let r := visitStmts fs cwd prog false
  match r.err with
  | some k => Except.error k
  | none => Except.ok r.stmts

mutual

/-- Whether an expression contains an identifier node whose symbol is the
marker name, anywhere in the tree (member properties that are plain names are
not identifier expressions in swc and are not counted). -/
def containsMarker (e : Expr) : Bool :=
  match e with
  | Expr.ident s => s == markerName
  | Expr.lit _ => false
  | Expr.member obj _ => containsMarker obj
  | Expr.computedMember obj prop => containsMarker obj || containsMarker prop
  | Expr.call c args => containsMarker c || containsMarkerArgs args
termination_by structural e

/-- `containsMarker` over an argument list. -/
def containsMarkerArgs (args : List (Bool × Expr)) : Bool :=
  match args with
  | [] => false
  | (_, e) :: rest => containsMarker e || containsMarkerArgs rest
termination_by structural args

end

/-- `containsMarker` over a statement. -/
def stmtContainsMarker (s : Stmt) : Bool :=
  match s with
  | Stmt.exprStmt e => containsMarker e
  | Stmt.varDecl _ e => containsMarker e

/-- `containsMarker` over a program. -/
def progContainsMarker (prog : List Stmt) : Bool :=
  match prog with
  | [] => false
  | s :: rest => stmtContainsMarker s || progContainsMarker rest

/-- Whether an expression contains no call expression at all. -/
def callFree (e : Expr) : Bool :=
  match e with
  | Expr.ident _ => true
  | Expr.lit _ => true
  | Expr.member obj _ => callFree obj
  | Expr.computedMember obj prop => callFree obj && callFree prop
  | Expr.call _ _ => false

/-- `callFree` over an argument list. -/
def argsCallFree (args : List (Bool × Expr)) : Bool :=
  match args with
  | [] => true
  | (_, e) :: rest => callFree e && argsCallFree rest

/-- A file system with no files at all. -/
def fsEmpty : FSys := ⟨fun _ => false, fun _ => none⟩

/-- A file system where every path exists but no file can be read as text. -/
def fsUnreadable : FSys := ⟨fun _ => true, fun _ => none⟩

/-- A file system holding exactly `/w/p` (content `P`) and `/w/q`
(content `Q`). -/
def fsPQ : FSys :=
  ⟨fun p => p == "/w/p" || p == "/w/q",
   fun p => if p == "/w/p" then some "P" else
            if p == "/w/q" then some "Q" else none⟩

/-- A file system holding exactly the absolute path `/abs`
(content `ABS`); in particular nothing under `/cwd` exists. -/
def fsAbs : FSys :=
  ⟨fun p => p == "/abs", fun p => if p == "/abs" then some "ABS" else none⟩

/-- Setting the flag is monotone: `visit_mut_callee` never clears it. -/
theorem visitMutCallee_true (c : Expr) : visitMutCallee true c = true := by
  cases c <;> simp [visitMutCallee]

/-- A callee containing no marker identifier leaves the flag untouched. -/
theorem visitMutCallee_markerFree (b : Bool) (c : Expr)
    (h : containsMarker c = false) : visitMutCallee b c = b := by
  cases c <;> simp_all [visitMutCallee, containsMarker]

/-- With the flag clear, the post hook does nothing. -/
theorem exprPostHook_flagFalse (fs : FSys) (cwd : Option String) (e : Expr) :
    exprPostHook fs cwd false e = ⟨e, false, none, 0⟩ := by
  simp [exprPostHook]

/-- On a non-call node, the post hook does nothing (whatever the flag). -/
theorem exprPostHook_nonCall (fs : FSys) (cwd : Option String) (b : Bool)
    (e : Expr) (h : ∀ c args, e ≠ Expr.call c args) :
    exprPostHook fs cwd b e = ⟨e, b, none, 0⟩ := by
  cases e <;> try (cases b <;> rfl)
  exact absurd rfl (h _ _)

/-- With the flag set, a call node always enters the substitution branch. -/
theorem exprPostHook_true_call (fs : FSys) (cwd : Option String) (c : Expr)
    (args : List (Bool × Expr)) :
    exprPostHook fs cwd true (Expr.call c args)
      = ⟨(substituteCall fs cwd args).1, (substituteCall fs cwd args).2.1,
          (substituteCall fs cwd args).2.2, 1⟩ := rfl

mutual

/-- On a tree containing no marker identifier, one visit with the flag clear
is the identity: no mutation, no panic, no substitution branch. -/
theorem visitMutExpr_markerFree (fs : FSys) (cwd : Option String) (e : Expr)
    (h : containsMarker e = false) :
    visitMutExpr fs cwd e false = ⟨e, false, none, 0⟩ := by
  match e with
  | Expr.ident s => rfl
  | Expr.lit l => rfl
  | Expr.member obj prop =>
    have hobj : containsMarker obj = false := by simpa [containsMarker] using h
    simp [visitMutExpr, visitMutExpr_markerFree fs cwd obj hobj,
      exprPostHook_flagFalse]
  | Expr.computedMember obj prop =>
    have hh : containsMarker obj = false ∧ containsMarker prop = false := by
      simpa [containsMarker] using h
    simp [visitMutExpr, visitMutExpr_markerFree fs cwd obj hh.1,
      visitMutExpr_markerFree fs cwd prop hh.2, exprPostHook_flagFalse]
  | Expr.call c args =>
    have hh : containsMarker c = false ∧ containsMarkerArgs args = false := by
      simpa [containsMarker] using h
    simp [visitMutExpr, visitMutCallee_markerFree false c hh.1,
      visitArgs_markerFree fs cwd args hh.2, exprPostHook_flagFalse]
termination_by structural e

/-- `visitMutExpr_markerFree` for argument lists. -/
theorem visitArgs_markerFree (fs : FSys) (cwd : Option String)
    (args : List (Bool × Expr)) (h : containsMarkerArgs args = false) :
    visitArgs fs cwd args false = ⟨args, false, none, 0⟩ := by
  match args with
  | [] => rfl
  | (s, e) :: rest =>
    have hh : containsMarker e = false ∧ containsMarkerArgs rest = false := by
      simpa [containsMarkerArgs] using h
    simp [visitArgs, visitMutExpr_markerFree fs cwd e hh.1,
      visitArgs_markerFree fs cwd rest hh.2]
termination_by structural args

end

/-- `visitMutExpr_markerFree` for statement lists. -/
theorem visitStmts_markerFree (fs : FSys) (cwd : Option String)
    (stmts : List Stmt) (h : progContainsMarker stmts = false) :
    visitStmts fs cwd stmts false = ⟨stmts, false, none, 0⟩ := by
  induction stmts with
  | nil => rfl
  | cons s rest ih =>
    have hh : stmtContainsMarker s = false ∧ progContainsMarker rest = false := by
      simpa [progContainsMarker] using h
    cases s with
    | exprStmt e =>
      have he : containsMarker e = false := by
        simpa [stmtContainsMarker] using hh.1
      simp [visitStmts, visitMutExpr_markerFree fs cwd e he, ih hh.2]
    | varDecl n e =>
      have he : containsMarker e = false := by
        simpa [stmtContainsMarker] using hh.1
      simp [visitStmts, visitMutExpr_markerFree fs cwd e he, ih hh.2]

/-- The transform is the identity on programs without the marker identifier
(shared by the idempotence results below). -/
theorem transform_markerFree (fs : FSys) (cwd : Option String)
    (prog : List Stmt) (h : progContainsMarker prog = false) :
    transformProgram fs cwd prog = Except.ok prog := by
  simp [transformProgram, visitStmts_markerFree fs cwd prog h]

/-- A call-free subtree is traversed without mutation, panic or flag change,
whatever the flag's current value: the flag is only consulted (and the tree
only mutated) on call nodes. -/
theorem visitMutExpr_callFree (fs : FSys) (cwd : Option String) (e : Expr)
    (b : Bool) (h : callFree e = true) :
    visitMutExpr fs cwd e b = ⟨e, b, none, 0⟩ := by
  match e with
  | Expr.ident s => cases b <;> rfl
  | Expr.lit l => cases b <;> rfl
  | Expr.member obj prop =>
    have hobj : callFree obj = true := by simpa [callFree] using h
    simp [visitMutExpr, visitMutExpr_callFree fs cwd obj b hobj,
      exprPostHook_nonCall fs cwd b (Expr.member obj prop)
        (fun c a hh => Expr.noConfusion hh)]
  | Expr.computedMember obj prop =>
    have hh : callFree obj = true ∧ callFree prop = true := by
      simpa [callFree] using h
    simp [visitMutExpr, visitMutExpr_callFree fs cwd obj b hh.1,
      visitMutExpr_callFree fs cwd prop b hh.2,
      exprPostHook_nonCall fs cwd b (Expr.computedMember obj prop)
        (fun c a hhh => Expr.noConfusion hhh)]
  | Expr.call c args => simp [callFree] at h
termination_by structural e

/-- `visitMutExpr_callFree` for argument lists. -/
theorem visitArgs_callFree (fs : FSys) (cwd : Option String)
    (args : List (Bool × Expr)) (b : Bool) (h : argsCallFree args = true) :
    visitArgs fs cwd args b = ⟨args, b, none, 0⟩ := by
  induction args generalizing b with
  | nil => rfl
  | cons a rest ih =>
    obtain ⟨s, e⟩ := a
    have hh : callFree e = true ∧ argsCallFree rest = true := by
      simpa [argsCallFree] using h
    simp [visitArgs, visitMutExpr_callFree fs cwd e b hh.1, ih b hh.2]

/-- If the substitution branch did not run, the post hook did nothing. -/
theorem exprPostHook_cnt0 (fs : FSys) (cwd : Option String) (b : Bool)
    (e : Expr) (h : (exprPostHook fs cwd b e).cnt = 0) :
    exprPostHook fs cwd b e = ⟨e, b, none, 0⟩ := by
  cases b
  · rfl
  · cases e <;> first | rfl | exact absurd h (by simp [exprPostHook])

mutual

/-- If one visit never ran the substitution branch, it was the identity:
no mutation, no panic, and the flag is exactly as it started. -/
theorem visitMutExpr_cnt0 (fs : FSys) (cwd : Option String) (e : Expr)
    (b : Bool) (h : (visitMutExpr fs cwd e b).cnt = 0) :
    visitMutExpr fs cwd e b = ⟨e, b, none, 0⟩ := by
  match e with
  | Expr.ident s => exact exprPostHook_cnt0 fs cwd b _ h
  | Expr.lit l => exact exprPostHook_cnt0 fs cwd b _ h
  | Expr.member obj prop =>
    simp only [visitMutExpr] at h ⊢
    cases herr : (visitMutExpr fs cwd obj b).err with
    | some k =>
      have h0 : (visitMutExpr fs cwd obj b).cnt = 0 := by
        simp only [herr] at h; exact h
      have hobj := visitMutExpr_cnt0 fs cwd obj b h0
      rw [hobj] at herr
      simp at herr
    | none =>
      simp only [herr] at h ⊢
      have h1 : (visitMutExpr fs cwd obj b).cnt = 0 := by omega
      have hobj := visitMutExpr_cnt0 fs cwd obj b h1
      rw [hobj] at h ⊢
      simp only at h ⊢
      have h2 : (exprPostHook fs cwd b (Expr.member obj prop)).cnt = 0 := by
        simpa using h
      simp [exprPostHook_cnt0 fs cwd b (Expr.member obj prop) h2]
  | Expr.computedMember obj prop =>
    simp only [visitMutExpr] at h ⊢
    cases herr1 : (visitMutExpr fs cwd obj b).err with
    | some k =>
      have h0 : (visitMutExpr fs cwd obj b).cnt = 0 := by
        simp only [herr1] at h; exact h
      have hobj := visitMutExpr_cnt0 fs cwd obj b h0
      rw [hobj] at herr1
      simp at herr1
    | none =>
      simp only [herr1] at h ⊢
      cases herr2 :
          (visitMutExpr fs cwd prop (visitMutExpr fs cwd obj b).isIncludeBytes).err with
      | some k =>
        have h0 :
            (visitMutExpr fs cwd prop (visitMutExpr fs cwd obj b).isIncludeBytes).cnt
              = 0 := by
          simp only [herr2] at h; omega
        have hprop := visitMutExpr_cnt0 fs cwd prop _ h0
        rw [hprop] at herr2
        simp at herr2
      | none =>
        simp only [herr2] at h ⊢
        have h1 : (visitMutExpr fs cwd obj b).cnt = 0 := by omega
        have hobj := visitMutExpr_cnt0 fs cwd obj b h1
        rw [hobj] at h ⊢
        simp only at h ⊢
        have h2 : (visitMutExpr fs cwd prop b).cnt = 0 := by omega
        have hprop := visitMutExpr_cnt0 fs cwd prop b h2
        rw [hprop] at h ⊢
        simp only at h ⊢
        have h3 : (exprPostHook fs cwd b (Expr.computedMember obj prop)).cnt = 0 := by
          simpa using h
        simp [exprPostHook_cnt0 fs cwd b (Expr.computedMember obj prop) h3]
  | Expr.call c args =>
    simp only [visitMutExpr] at h ⊢
    cases herr : (visitArgs fs cwd args (visitMutCallee b c)).err with
    | some k =>
      have h0 : (visitArgs fs cwd args (visitMutCallee b c)).cnt = 0 := by
        simp only [herr] at h; exact h
      have hargs := visitArgs_cnt0 fs cwd args _ h0
      rw [hargs] at herr
      simp at herr
    | none =>
      simp only [herr] at h ⊢
      have h1 : (visitArgs fs cwd args (visitMutCallee b c)).cnt = 0 := by omega
      have hargs := visitArgs_cnt0 fs cwd args _ h1
      rw [hargs] at h ⊢
      simp only at h ⊢
      cases hf1 : visitMutCallee b c with
      | true =>
        rw [hf1] at h
        simp [exprPostHook_true_call] at h
      | false =>
        cases b with
        | true => rw [visitMutCallee_true] at hf1; exact Bool.noConfusion hf1
        | false =>
          simp [exprPostHook_flagFalse]
termination_by structural e

/-- `visitMutExpr_cnt0` for argument lists. -/
theorem visitArgs_cnt0 (fs : FSys) (cwd : Option String)
    (args : List (Bool × Expr)) (b : Bool)
    (h : (visitArgs fs cwd args b).cnt = 0) :
    visitArgs fs cwd args b = ⟨args, b, none, 0⟩ := by
  match args with
  | [] => rfl
  | (s, e) :: rest =>
    simp only [visitArgs] at h ⊢
    cases herr : (visitMutExpr fs cwd e b).err with
    | some k =>
      have h0 : (visitMutExpr fs cwd e b).cnt = 0 := by
        simp only [herr] at h; exact h
      have he := visitMutExpr_cnt0 fs cwd e b h0
      rw [he] at herr
      simp at herr
    | none =>
      simp only [herr] at h ⊢
      have h1 : (visitMutExpr fs cwd e b).cnt = 0 := by omega
      have he := visitMutExpr_cnt0 fs cwd e b h1
      rw [he] at h ⊢
      simp only at h ⊢
      have h2 : (visitArgs fs cwd rest b).cnt = 0 := by omega
      simp [visitArgs_cnt0 fs cwd rest b h2]
termination_by structural args

end

/-- `visitMutExpr_cnt0` for statement lists. -/
theorem visitStmts_cnt0 (fs : FSys) (cwd : Option String) (stmts : List Stmt)
    (b : Bool) (h : (visitStmts fs cwd stmts b).cnt = 0) :
    visitStmts fs cwd stmts b = ⟨stmts, b, none, 0⟩ := by
  induction stmts generalizing b with
  | nil => rfl
  | cons s rest ih =>
    cases s with
    | exprStmt e =>
      simp only [visitStmts] at h ⊢
      cases herr : (visitMutExpr fs cwd e b).err with
      | some k =>
        have h0 : (visitMutExpr fs cwd e b).cnt = 0 := by
          simp only [herr] at h; exact h
        have he := visitMutExpr_cnt0 fs cwd e b h0
        rw [he] at herr
        simp at herr
      | none =>
        simp only [herr] at h ⊢
        have h1 : (visitMutExpr fs cwd e b).cnt = 0 := by omega
        have he := visitMutExpr_cnt0 fs cwd e b h1
        rw [he] at h ⊢
        simp only at h ⊢
        have h2 : (visitStmts fs cwd rest b).cnt = 0 := by omega
        simp [ih b h2]
    | varDecl n e =>
      simp only [visitStmts] at h ⊢
      cases herr : (visitMutExpr fs cwd e b).err with
      | some k =>
        have h0 : (visitMutExpr fs cwd e b).cnt = 0 := by
          simp only [herr] at h; exact h
        have he := visitMutExpr_cnt0 fs cwd e b h0
        rw [he] at herr
        simp at herr
      | none =>
        simp only [herr] at h ⊢
        have h1 : (visitMutExpr fs cwd e b).cnt = 0 := by omega
        have he := visitMutExpr_cnt0 fs cwd e b h1
        rw [he] at h ⊢
        simp only at h ⊢
        have h2 : (visitStmts fs cwd rest b).cnt = 0 := by omega
        simp [ih b h2]

mutual

/-- The schedule of `visit_mut_expr` hook invocations during one visit of a
tree, as the relative paths (child-index sequences, `[]` = the root itself)
of the nodes that receive the hook, in invocation-completion order.  Child
indices: `obj` of a member is child 0, a computed property is child 1, the
callee of a call is child 0 and argument `i` is child `i + 1`.  The shape of
the schedule mirrors the dispatch in `visitMutExpr`: children left to right,
then the node itself; for a call the callee position goes through
`visit_mut_callee` only, which does not recurse, so no path below child 0 of
a call is ever scheduled.  (Scheduling depends only on node shapes, which
the rewrite preserves at every scheduled position, so this is the hook order
of the mutating traversal as well.) -/
def visitPathsE (e : Expr) : List (List Nat) :=
  match e with
  | Expr.ident _ => [[]]
  | Expr.lit _ => [[]]
  | Expr.member obj _ => (visitPathsE obj).map (fun q => 0 :: q) ++ [[]]
  | Expr.computedMember obj prop =>
    (visitPathsE obj).map (fun q => 0 :: q)
      ++ (visitPathsE prop).map (fun q => 1 :: q) ++ [[]]
  | Expr.call _ args => visitPathsArgs args 1 ++ [[]]
termination_by structural e

/-- Hook schedule of an argument list whose first element is child `i`. -/
def visitPathsArgs (args : List (Bool × Expr)) (i : Nat) : List (List Nat) :=
  match args with
  | [] => []
  | (_, e) :: rest =>
    (visitPathsE e).map (fun q => i :: q) ++ visitPathsArgs rest (i + 1)
termination_by structural args

end

mutual

/-- The schedule the claim describes (its words, not the code): every node of
the tree, including a call's callee and all of the callee's descendants, in
postorder — children (callee first, at child index 0) before the node. -/
def postorderPaths (e : Expr) : List (List Nat) :=
  match e with
  | Expr.ident _ => [[]]
  | Expr.lit _ => [[]]
  | Expr.member obj _ => (postorderPaths obj).map (fun q => 0 :: q) ++ [[]]
  | Expr.computedMember obj prop =>
    (postorderPaths obj).map (fun q => 0 :: q)
      ++ (postorderPaths prop).map (fun q => 1 :: q) ++ [[]]
  | Expr.call c args =>
    (postorderPaths c).map (fun q => 0 :: q) ++ postorderPathsArgs args 1 ++ [[]]
termination_by structural e

/-- `postorderPaths` for an argument list starting at child `i`. -/
def postorderPathsArgs (args : List (Bool × Expr)) (i : Nat) : List (List Nat) :=
  match args with
  | [] => []
  | (_, e) :: rest =>
    (postorderPaths e).map (fun q => i :: q) ++ postorderPathsArgs rest (i + 1)
termination_by structural args

end

mutual

/-- Whether a path addresses a node of the tree that does not lie inside the
callee position of any call (the callee of a call is its child 0). -/
def reachableNonCallee (e : Expr) (p : List Nat) : Bool :=
  match e, p with
  | _, [] => true
  | Expr.member obj _, 0 :: q => reachableNonCallee obj q
  | Expr.computedMember obj _, 0 :: q => reachableNonCallee obj q
  | Expr.computedMember _ prop, 1 :: q => reachableNonCallee prop q
  | Expr.call _ args, Nat.succ n :: q => reachableArgs args n q
  | _, _ => false
termination_by structural e

/-- `reachableNonCallee` into the `n`-th element of an argument list. -/
def reachableArgs (args : List (Bool × Expr)) (n : Nat) (p : List Nat) : Bool :=
  match args, n with
  | [], _ => false
  | (_, e) :: _, 0 => reachableNonCallee e p
  | _ :: rest, Nat.succ m => reachableArgs rest m p
termination_by structural args

end
/-- Prefixing every path in a schedule with a fixed child index preserves
the no-earlier-entry-is-a-prefix-of-a-later-one property. -/
theorem pairwise_notPrefix_map_cons (n : Nat) (l : List (List Nat))
    (h : List.Pairwise (fun a b => ¬ a <+: b) l) :
    List.Pairwise (fun a b => ¬ a <+: b) (l.map (fun q => n :: q)) := by
  rw [List.pairwise_map]
  refine List.Pairwise.imp ?_ h
  intro a b hab hc
  exact hab (List.cons_prefix_cons.mp hc).2

/-- Every scheduled path of an argument list starting at child `i` is
nonempty with head at least `i`. -/
theorem visitPathsArgs_head (args : List (Bool × Expr)) (i : Nat) :
    ∀ p ∈ visitPathsArgs args i, ∃ n q, p = n :: q ∧ i ≤ n := by
  induction args generalizing i with
  | nil => simp [visitPathsArgs]
  | cons a rest ih =>
    obtain ⟨s, e⟩ := a
    intro p hp
    simp only [visitPathsArgs, List.mem_append, List.mem_map] at hp
    rcases hp with ⟨q, _, rfl⟩ | hp
    · exact ⟨i, q, rfl, Nat.le_refl i⟩
    · obtain ⟨n, q, rfl, hn⟩ := ih (i + 1) p hp
      exact ⟨n, q, rfl, by omega⟩

mutual

/-- In the hook schedule no earlier entry is a prefix of a later one: no node
is scheduled twice, and every node is scheduled only after everything
scheduled underneath it (postorder). -/
theorem visitPathsE_pairwise (e : Expr) :
    List.Pairwise (fun a b => ¬ a <+: b) (visitPathsE e) := by
  match e with
  | Expr.ident s => simp [visitPathsE]
  | Expr.lit l => simp [visitPathsE]
  | Expr.member obj prop =>
    simp only [visitPathsE]
    rw [List.pairwise_append]
    refine ⟨pairwise_notPrefix_map_cons 0 _ (visitPathsE_pairwise obj), by simp, ?_⟩
    intro a ha b hb
    simp only [List.mem_map] at ha
    simp only [List.mem_singleton] at hb
    obtain ⟨q, _, rfl⟩ := ha
    subst hb
    simp
  | Expr.computedMember obj prop =>
    simp only [visitPathsE]
    rw [List.pairwise_append]
    refine ⟨?_, by simp, ?_⟩
    · rw [List.pairwise_append]
      refine ⟨pairwise_notPrefix_map_cons 0 _ (visitPathsE_pairwise obj),
        pairwise_notPrefix_map_cons 1 _ (visitPathsE_pairwise prop), ?_⟩
      intro a ha b hb
      simp only [List.mem_map] at ha hb
      obtain ⟨q, _, rfl⟩ := ha
      obtain ⟨q2, _, rfl⟩ := hb
      intro hc
      exact absurd (List.cons_prefix_cons.mp hc).1 (by omega)
    · intro a ha b hb
      simp only [List.mem_singleton] at hb
      subst hb
      simp only [List.mem_append, List.mem_map] at ha
      rcases ha with ⟨q, _, rfl⟩ | ⟨q, _, rfl⟩ <;> simp
  | Expr.call c args =>
    simp only [visitPathsE]
    rw [List.pairwise_append]
    refine ⟨visitPathsArgs_pairwise args 1, by simp, ?_⟩
    intro a ha b hb
    simp only [List.mem_singleton] at hb
    subst hb
    obtain ⟨n, q, rfl, _⟩ := visitPathsArgs_head args 1 a ha
    simp
termination_by structural e

/-- `visitPathsE_pairwise` for argument lists. -/
theorem visitPathsArgs_pairwise (args : List (Bool × Expr)) (i : Nat) :
    List.Pairwise (fun a b => ¬ a <+: b) (visitPathsArgs args i) := by
  match args with
  | [] => simp [visitPathsArgs]
  | (s, e) :: rest =>
    simp only [visitPathsArgs]
    rw [List.pairwise_append]
    refine ⟨pairwise_notPrefix_map_cons i _ (visitPathsE_pairwise e),
      visitPathsArgs_pairwise rest (i + 1), ?_⟩
    intro a ha b hb
    simp only [List.mem_map] at ha
    obtain ⟨q, _, rfl⟩ := ha
    obtain ⟨n, q2, rfl, hn⟩ := visitPathsArgs_head rest (i + 1) b hb
    intro hc
    exact absurd (List.cons_prefix_cons.mp hc).1 (by omega)
termination_by structural args

end

mutual

/-- The hook schedule contains exactly the paths of nodes lying outside every
callee subtree: each such node is visited (at least once; together with
`visitPathsE_pairwise`, exactly once), and no other node is ever visited. -/
theorem visitPathsE_mem (e : Expr) (p : List Nat) :
    p ∈ visitPathsE e ↔ reachableNonCallee e p = true := by
  match e with
  | Expr.ident s => cases p <;> simp [visitPathsE, reachableNonCallee]
  | Expr.lit l => cases p <;> simp [visitPathsE, reachableNonCallee]
  | Expr.member obj prop =>
    cases p with
    | nil => simp [visitPathsE, reachableNonCallee]
    | cons n q =>
      match n with
      | 0 => simp [visitPathsE, reachableNonCallee, visitPathsE_mem obj q]
      | Nat.succ m => simp [visitPathsE, reachableNonCallee]
  | Expr.computedMember obj prop =>
    cases p with
    | nil => simp [visitPathsE, reachableNonCallee]
    | cons n q =>
      match n with
      | 0 => simp [visitPathsE, reachableNonCallee, visitPathsE_mem obj q]
      | 1 => simp [visitPathsE, reachableNonCallee, visitPathsE_mem prop q]
      | Nat.succ (Nat.succ m) => simp [visitPathsE, reachableNonCallee]
  | Expr.call c args =>
    cases p with
    | nil => simp [visitPathsE, reachableNonCallee]
    | cons n q =>
      match n with
      | 0 =>
        simp only [visitPathsE, List.mem_append, List.mem_singleton,
          visitPathsArgs_mem args 1 (0 :: q)]
        simp [reachableNonCallee]
        intro n' h
        exact absurd h (by omega)
      | Nat.succ m =>
        simp only [visitPathsE, List.mem_append, List.mem_singleton,
          visitPathsArgs_mem args 1 (Nat.succ m :: q)]
        simp only [reachableNonCallee]
        constructor
        · rintro (⟨n', q', heq, hr⟩ | h)
          · obtain ⟨h1, h2⟩ := List.cons.inj heq
            subst h2
            have hn : n' = m := by omega
            subst hn
            exact hr
          · exact absurd h (by simp)
        · intro h
          left
          exact ⟨m, q, by rw [show Nat.succ m = 1 + m by omega], h⟩
termination_by structural e

/-- `visitPathsE_mem` for argument lists starting at child `i`. -/
theorem visitPathsArgs_mem (args : List (Bool × Expr)) (i : Nat) (p : List Nat) :
    p ∈ visitPathsArgs args i ↔
      ∃ n q, p = (i + n) :: q ∧ reachableArgs args n q = true := by
  match args with
  | [] => simp [visitPathsArgs, reachableArgs]
  | (s, e) :: rest =>
    simp only [visitPathsArgs, List.mem_append, List.mem_map]
    rw [visitPathsArgs_mem rest (i + 1) p]
    constructor
    · rintro (⟨q, hq, rfl⟩ | ⟨n, q, rfl, hr⟩)
      · refine ⟨0, q, by simp, ?_⟩
        simpa [reachableArgs] using (visitPathsE_mem e q).mp hq
      · refine ⟨n + 1, q, by rw [show i + (n + 1) = i + 1 + n by omega], ?_⟩
        simpa [reachableArgs] using hr
    · rintro ⟨n, q, rfl, hr⟩
      match n with
      | 0 =>
        left
        exact ⟨q, (visitPathsE_mem e q).mpr (by simpa [reachableArgs] using hr),
          by simp⟩
      | Nat.succ m =>
        right
        refine ⟨m, q, by rw [show i + (m + 1) = i + 1 + m by omega], ?_⟩
        simpa [reachableArgs] using hr
termination_by structural args

end

/-- C1 counterexample: a program containing a marker call that satisfies every
premise of the claim (callee is the bare marker identifier, first argument is
the string literal `p`, which cwd-joins to the existing readable file `/w/p`
with content `P`), yet the transform succeeds returning the program unchanged
(the marker call sits in the callee position of an outer call, whose subtree
`visit_mut_callee` never recurses into), so the call is not rewritten. -/
theorem c1_counterexample :
    fsPQ.pathExists (joinPath "/w" "p") = true
    ∧ fsPQ.readToString (joinPath "/w" "p") = some "P"
    ∧ transformProgram fsPQ (some "/w")
        [Stmt.exprStmt (Expr.call
          (Expr.call (Expr.ident "includeBytes") [(false, Expr.lit (Lit.str "p"))])
          [(false, Expr.ident "y")])]
      = Except.ok
        [Stmt.exprStmt (Expr.call
          (Expr.call (Expr.ident "includeBytes") [(false, Expr.lit (Lit.str "p"))])
          [(false, Expr.ident "y")])]
    ∧ progContainsMarker
        [Stmt.exprStmt (Expr.call
          (Expr.call (Expr.ident "includeBytes") [(false, Expr.lit (Lit.str "p"))])
          [(false, Expr.ident "y")])] = true :=
  ⟨rfl, rfl, rfl, rfl⟩

/-- C1 (amended): for a program whose statement is a marker call
`includeBytes(P, rest...)` whose remaining arguments contain no call
expression (so no other call's hook can consume the flag first, and the call
is not itself in a callee position), where `P` cwd-joins to an existing file
readable with content `C`, the transform rewrites exactly that call into
`env.latin1_string_to_uint8array(C, rest...)`, leaving every other part of
the call untouched. -/
theorem c1_marker_call_rewrite (fs : FSys) (w p contents : String) (s : Bool)
    (rest : List (Bool × Expr))
    (hrest : argsCallFree rest = true)
    (hex : fs.pathExists (joinPath w p) = true)
    (hread : fs.readToString (joinPath w p) = some contents) :
    transformProgram fs (some w)
        [Stmt.exprStmt (Expr.call (Expr.ident markerName)
          ((s, Expr.lit (Lit.str p)) :: rest))]
      = Except.ok
        [Stmt.exprStmt (Expr.call rewrittenCallee
          ((s, Expr.lit (Lit.str contents)) :: rest))] := by
  simp [transformProgram, visitStmts, visitMutExpr, visitArgs, visitMutCallee,
    markerName, exprPostHook, substituteCall, hex, hread,
    visitArgs_callFree fs (some w) rest true hrest]

/-- C1 witness: the amended rewrite on a concrete two-argument marker call. -/
theorem c1_marker_call_rewrite_witness :
    transformProgram fsPQ (some "/w")
        [Stmt.exprStmt (Expr.call (Expr.ident markerName)
          ((false, Expr.lit (Lit.str "p")) :: [(true, Expr.lit (Lit.num 3))]))]
      = Except.ok
        [Stmt.exprStmt (Expr.call rewrittenCallee
          ((false, Expr.lit (Lit.str "P")) :: [(true, Expr.lit (Lit.num 3))]))] :=
  c1_marker_call_rewrite fsPQ "/w" "p" "P" false [(true, Expr.lit (Lit.num 3))]
    rfl rfl rfl

/-- C2 counterexample: `Path::join` does not treat an absolute argument as
relative to the working directory — it yields the argument itself.  With
working directory `/cwd` and argument `/abs`, the transform resolves and
reads `/abs` (succeeding on a file system where nothing under `/cwd`
exists at the candidate relative resolutions), so the resolved path is
exactly `P`, which the claim says can never happen. -/
theorem c2_counterexample :
    joinPath "/cwd" "/abs" = "/abs"
    ∧ fsAbs.pathExists "/cwd//abs" = false
    ∧ fsAbs.pathExists "/cwd/abs" = false
    ∧ transformProgram fsAbs (some "/cwd")
        [Stmt.exprStmt (Expr.call (Expr.ident "includeBytes")
          [(false, Expr.lit (Lit.str "/abs"))])]
      = Except.ok
        [Stmt.exprStmt (Expr.call rewrittenCallee
          [(false, Expr.lit (Lit.str "ABS"))])] :=
  ⟨rfl, rfl, rfl, rfl⟩

/-- C2 (amended): the resolved file is the platform path-join of the working
directory and the argument; a relative argument is appended under the
working directory, but an absolute argument replaces it entirely, so the
transform then reads `P` itself: for absolute `P` readable with content `C`,
the call is rewritten with `C` regardless of the working directory. -/
theorem c2_absolute_path_resolution (fs : FSys) (w p contents : String)
    (s : Bool)
    (habs : p.data.head? = some '/')
    (hex : fs.pathExists p = true)
    (hread : fs.readToString p = some contents) :
    joinPath w p = p
    ∧ transformProgram fs (some w)
        [Stmt.exprStmt (Expr.call (Expr.ident markerName)
          [(s, Expr.lit (Lit.str p))])]
      = Except.ok
        [Stmt.exprStmt (Expr.call rewrittenCallee
          [(s, Expr.lit (Lit.str contents))])] := by
  have hjoin : joinPath w p = p := by simp [joinPath, habs]
  refine ⟨hjoin, ?_⟩
  simp [transformProgram, visitStmts, visitMutExpr, visitArgs, visitMutCallee,
    markerName, exprPostHook, substituteCall, hjoin, hex, hread]

/-- C2 witness: an absolute path resolving to itself on a concrete file
system where nothing under the working directory exists. -/
theorem c2_absolute_path_resolution_witness :
    joinPath "/cwd" "/abs" = "/abs"
    ∧ transformProgram fsAbs (some "/cwd")
        [Stmt.exprStmt (Expr.call (Expr.ident markerName)
          [(true, Expr.lit (Lit.str "/abs"))])]
      = Except.ok
        [Stmt.exprStmt (Expr.call rewrittenCallee
          [(true, Expr.lit (Lit.str "ABS"))])] :=
  c2_absolute_path_resolution fsAbs "/cwd" "/abs" "ABS" true rfl rfl rfl

/-- C3 counterexample: on the zero-argument marker call the transform does
fail with `MissingArgument`, but it is false that no node is changed before
the failure: at the moment the panic fires, the call's callee has already
been replaced by `env.latin1_string_to_uint8array` (line 58 runs before the
argument check at line 69), so the marker identifier is gone from the tree
state carried at the failure. -/
theorem c3_counterexample :
    (visitMutExpr fsEmpty none (Expr.call (Expr.ident "includeBytes") []) false).err
        = some TransformError.missingArgument
    ∧ containsMarker (Expr.call (Expr.ident "includeBytes") []) = true
    ∧ (visitMutExpr fsEmpty none
        (Expr.call (Expr.ident "includeBytes") []) false).expr
        = Expr.call rewrittenCallee []
    ∧ containsMarker (visitMutExpr fsEmpty none
        (Expr.call (Expr.ident "includeBytes") []) false).expr = false :=
  ⟨rfl, rfl, rfl, rfl⟩

/-- C3 (amended): a zero-argument marker call makes the whole transform fail
with `MissingArgument`, and no transformed tree is returned to the host;
however, before the failure fires the offending call's callee has already
been rewritten in place to `env.latin1_string_to_uint8array`. -/
theorem c3_missing_argument (fs : FSys) (cwd : Option String) :
    transformProgram fs cwd
        [Stmt.exprStmt (Expr.call (Expr.ident markerName) [])]
      = Except.error TransformError.missingArgument
    ∧ (visitMutExpr fs cwd (Expr.call (Expr.ident markerName) []) false).expr
        = Expr.call rewrittenCallee [] := by
  constructor <;>
    simp [transformProgram, visitStmts, visitMutExpr, visitArgs, visitMutCallee,
      markerName, exprPostHook, substituteCall]

/-- C4 counterexample: the node at path `[0,0]` (the object `a` of the member
callee `a.b`, a descendant of a call's callee) is a node of the tree, and the
claimed postorder schedule contains it, but the actual hook schedule never
visits it: `visit_mut_callee` does not recurse, so the traversal's schedule
differs from the claimed all-nodes postorder schedule. -/
theorem c4_counterexample :
    [0, 0] ∈ postorderPaths (Expr.call (Expr.member (Expr.ident "a") "b") [])
    ∧ [0, 0] ∉ visitPathsE (Expr.call (Expr.member (Expr.ident "a") "b") [])
    ∧ visitPathsE (Expr.call (Expr.member (Expr.ident "a") "b") [])
        ≠ postorderPaths (Expr.call (Expr.member (Expr.ident "a") "b") []) := by
  refine ⟨?_, ?_, ?_⟩ <;> decide

/-- C4 (amended): one traversal runs the expression hook exactly on the nodes
that lie outside every callee subtree — a call's callee position receives
only the (non-recursive) callee hook, and the callee's descendants are never
visited — each such node exactly once, children before the node (no earlier
scheduled path is a prefix of a later one, so no node is visited twice and
every node comes after everything beneath it). -/
theorem c4_traversal_schedule (e : Expr) :
    List.Pairwise (fun a b => ¬ a <+: b) (visitPathsE e)
    ∧ (∀ p, p ∈ visitPathsE e ↔ reachableNonCallee e p = true) :=
  ⟨visitPathsE_pairwise e, fun p => visitPathsE_mem e p⟩

/-- If the substitution produced no panic, it was the success path: the flag
was cleared and the node is a call of `env.latin1_string_to_uint8array`. -/
theorem substituteCall_ok (fs : FSys) (cwd : Option String)
    (args : List (Bool × Expr))
    (h : (substituteCall fs cwd args).2.2 = none) :
    (substituteCall fs cwd args).2.1 = false
    ∧ ∃ newArgs, (substituteCall fs cwd args).1
        = Expr.call rewrittenCallee newArgs := by
  match args with
  | [] => simp [substituteCall] at h
  | (s, first) :: rest =>
    cases first with
    | lit l =>
      cases l with
      | str p =>
        cases cwd with
        | none => simp [substituteCall] at h
        | some w =>
          simp only [substituteCall] at h ⊢
          cases hex : fs.pathExists (joinPath w p) with
          | false => simp [hex] at h
          | true =>
            simp only [hex] at h ⊢
            cases hread : fs.readToString (joinPath w p) with
            | none => simp [hread] at h
            | some contents => simp [hread]
      | num n => simp [substituteCall] at h
      | boolean bb => simp [substituteCall] at h
    | ident s2 => simp [substituteCall] at h
    | member o pr => simp [substituteCall] at h
    | computedMember o pr => simp [substituteCall] at h
    | call c2 a2 => simp [substituteCall] at h

/-- C5: the flag protocol.  Visiting a callee that is the bare marker
identifier sets the flag; any other callee (non-marker identifier, member
access, computed member, call, literal) leaves it untouched.  A set flag
survives every non-call expression hook unchanged, so it is consumed by
whichever call expression's hook runs next in the remaining traversal; that
hook runs the substitution branch exactly once on that very call and, when
it succeeds, rewrites that call's callee and clears the flag. -/
theorem c5_flag_protocol :
    (∀ b : Bool, visitMutCallee b (Expr.ident markerName) = true)
    ∧ (∀ (b : Bool) (c : Expr), c ≠ Expr.ident markerName →
        visitMutCallee b c = b)
    ∧ (∀ (fs : FSys) (cwd : Option String) (e : Expr),
        (∀ c args, e ≠ Expr.call c args) →
          exprPostHook fs cwd true e = ⟨e, true, none, 0⟩)
    ∧ (∀ (fs : FSys) (cwd : Option String) (c : Expr)
        (args : List (Bool × Expr)),
        (exprPostHook fs cwd true (Expr.call c args)).cnt = 1
        ∧ ((exprPostHook fs cwd true (Expr.call c args)).err = none →
            (exprPostHook fs cwd true (Expr.call c args)).isIncludeBytes = false
            ∧ ∃ newArgs, (exprPostHook fs cwd true (Expr.call c args)).expr
                = Expr.call rewrittenCallee newArgs)) := by
  refine ⟨?_, ?_, ?_, ?_⟩
  · intro b
    simp [visitMutCallee]
  · intro b c h
    cases c with
    | ident s =>
      have hs : (s == markerName) = false := by
        rw [beq_eq_false_iff_ne]
        intro hs
        exact h (by rw [hs])
      simp [visitMutCallee, hs]
    | lit l => rfl
    | member o pr => rfl
    | computedMember o pr => rfl
    | call c2 a2 => rfl
  · intro fs cwd e h
    exact exprPostHook_nonCall fs cwd true e h
  · intro fs cwd c args
    refine ⟨rfl, ?_⟩
    intro h
    exact substituteCall_ok fs cwd args h

/-- C5 witness: a member-access callee leaves a clear flag clear, and a set
flag passes through a string-literal node's hook untouched. -/
theorem c5_flag_protocol_witness :
    visitMutCallee false (Expr.member (Expr.ident "a") "b") = false
    ∧ exprPostHook fsEmpty none true (Expr.lit (Lit.str "x"))
        = ⟨Expr.lit (Lit.str "x"), true, none, 0⟩ :=
  ⟨c5_flag_protocol.2.1 false (Expr.member (Expr.ident "a") "b")
      (fun h => Expr.noConfusion h),
   c5_flag_protocol.2.2.1 fsEmpty none (Expr.lit (Lit.str "x"))
      (fun c args h => Expr.noConfusion h)⟩

/-- C6: once a call is processed with the flag set, the failure checks run in
source order and each aborts with its own kind: no argument at all panics
`MissingArgument`; a first argument that is not a plain string literal panics
`InvalidArgumentType`; a missing working directory panics `MissingCwd`; a
joined path that does not exist panics `FileNotFound`; an existing path that
cannot be read as text panics `ReadFailure`.  Each case holds with every
later condition unconstrained (the earlier check fires first), the panic is
recorded in the hook result that the traversal propagates as an immediate
abort of the whole transform, and in every case the callee has already been
replaced. -/
theorem c6_error_order :
    (∀ (fs : FSys) (cwd : Option String) (c : Expr),
      exprPostHook fs cwd true (Expr.call c [])
        = ⟨Expr.call rewrittenCallee [], true,
            some TransformError.missingArgument, 1⟩)
    ∧ (∀ (fs : FSys) (cwd : Option String) (c first : Expr) (s : Bool)
        (rest : List (Bool × Expr)),
        (∀ p, first ≠ Expr.lit (Lit.str p)) →
        exprPostHook fs cwd true (Expr.call c ((s, first) :: rest))
          = ⟨Expr.call rewrittenCallee ((s, first) :: rest), true,
              some TransformError.invalidArgumentType, 1⟩)
    ∧ (∀ (fs : FSys) (c : Expr) (s : Bool) (p : String)
        (rest : List (Bool × Expr)),
        exprPostHook fs none true
            (Expr.call c ((s, Expr.lit (Lit.str p)) :: rest))
          = ⟨Expr.call rewrittenCallee ((s, Expr.lit (Lit.str p)) :: rest),
              true, some TransformError.missingCwd, 1⟩)
    ∧ (∀ (fs : FSys) (w : String) (c : Expr) (s : Bool) (p : String)
        (rest : List (Bool × Expr)),
        fs.pathExists (joinPath w p) = false →
        exprPostHook fs (some w) true
            (Expr.call c ((s, Expr.lit (Lit.str p)) :: rest))
          = ⟨Expr.call rewrittenCallee ((s, Expr.lit (Lit.str p)) :: rest),
              true, some TransformError.fileNotFound, 1⟩)
    ∧ (∀ (fs : FSys) (w : String) (c : Expr) (s : Bool) (p : String)
        (rest : List (Bool × Expr)),
        fs.pathExists (joinPath w p) = true →
        fs.readToString (joinPath w p) = none →
        exprPostHook fs (some w) true
            (Expr.call c ((s, Expr.lit (Lit.str p)) :: rest))
          = ⟨Expr.call rewrittenCallee ((s, Expr.lit (Lit.str p)) :: rest),
              true, some TransformError.readFailure, 1⟩) := by
  refine ⟨fun fs cwd c => rfl, ?_, fun fs c s p rest => rfl, ?_, ?_⟩
  · intro fs cwd c first s rest h
    cases first with
    | lit l =>
      cases l with
      | str p => exact absurd rfl (h p)
      | num n => rfl
      | boolean bb => rfl
    | ident s2 => rfl
    | member o pr => rfl
    | computedMember o pr => rfl
    | call c2 a2 => rfl
  · intro fs w c s p rest hex
    simp [exprPostHook, substituteCall, hex]
  · intro fs w c s p rest hex hread
    simp [exprPostHook, substituteCall, hex, hread]

/-- C6 witness: all five failure kinds realized on concrete calls. -/
theorem c6_error_order_witness :
    exprPostHook fsEmpty none true (Expr.call (Expr.ident markerName) [])
      = ⟨Expr.call rewrittenCallee [], true,
          some TransformError.missingArgument, 1⟩
    ∧ exprPostHook fsEmpty none true
        (Expr.call (Expr.ident markerName) [(false, Expr.lit (Lit.num 7))])
      = ⟨Expr.call rewrittenCallee [(false, Expr.lit (Lit.num 7))], true,
          some TransformError.invalidArgumentType, 1⟩
    ∧ exprPostHook fsEmpty none true
        (Expr.call (Expr.ident markerName) [(false, Expr.lit (Lit.str "p"))])
      = ⟨Expr.call rewrittenCallee [(false, Expr.lit (Lit.str "p"))], true,
          some TransformError.missingCwd, 1⟩
    ∧ exprPostHook fsEmpty (some "/w") true
        (Expr.call (Expr.ident markerName) [(false, Expr.lit (Lit.str "p"))])
      = ⟨Expr.call rewrittenCallee [(false, Expr.lit (Lit.str "p"))], true,
          some TransformError.fileNotFound, 1⟩
    ∧ exprPostHook fsUnreadable (some "/w") true
        (Expr.call (Expr.ident markerName) [(false, Expr.lit (Lit.str "p"))])
      = ⟨Expr.call rewrittenCallee [(false, Expr.lit (Lit.str "p"))], true,
          some TransformError.readFailure, 1⟩ :=
  ⟨c6_error_order.1 fsEmpty none (Expr.ident markerName),
   c6_error_order.2.1 fsEmpty none (Expr.ident markerName)
     (Expr.lit (Lit.num 7)) false []
     (fun p h => Lit.noConfusion (Expr.lit.inj h)),
   c6_error_order.2.2.1 fsEmpty (Expr.ident markerName) false "p" [],
   c6_error_order.2.2.2.1 fsEmpty "/w" (Expr.ident markerName) false "p" [] rfl,
   c6_error_order.2.2.2.2 fsUnreadable "/w" (Expr.ident markerName) false "p" []
     rfl rfl⟩

/-- C7: the transform is the identity (and succeeds) on every program that
contains no identifier expression whose symbol is exactly the marker name. -/
theorem c7_no_marker_identity (fs : FSys) (cwd : Option String)
    (prog : List Stmt) (h : progContainsMarker prog = false) :
    transformProgram fs cwd prog = Except.ok prog :=
  transform_markerFree fs cwd prog h

/-- C7 witness: a marker-free program passes through unchanged. -/
theorem c7_no_marker_identity_witness :
    transformProgram fsEmpty none
        [Stmt.exprStmt (Expr.call (Expr.ident "f")
          [(false, Expr.lit (Lit.str "p"))]),
         Stmt.varDecl "x" (Expr.member (Expr.ident "env") "latin1_string_to_uint8array")]
      = Except.ok
        [Stmt.exprStmt (Expr.call (Expr.ident "f")
          [(false, Expr.lit (Lit.str "p"))]),
         Stmt.varDecl "x" (Expr.member (Expr.ident "env") "latin1_string_to_uint8array")] :=
  c7_no_marker_identity fsEmpty none _ rfl

/-- C8 counterexample: re-running the pass on the output of a successful
first run is not always a no-op.  In `includeBytes("p", includeBytes("q"))`
the inner call's hook consumes the flag set by the outer callee, so the
first run succeeds rewriting only the inner call and leaves the outer bare
marker callee in place.  The second run then flags that outer callee, and
the flag is consumed by the already-rewritten inner `env` call, whose first
argument is now the file CONTENT `Q`; resolving `Q` as a path fails, so the
second run aborts with `FileNotFound` instead of being a no-op. -/
theorem c8_counterexample :
    transformProgram fsPQ (some "/w")
        [Stmt.exprStmt (Expr.call (Expr.ident "includeBytes")
          [(false, Expr.lit (Lit.str "p")),
           (false, Expr.call (Expr.ident "includeBytes")
             [(false, Expr.lit (Lit.str "q"))])])]
      = Except.ok
        [Stmt.exprStmt (Expr.call (Expr.ident "includeBytes")
          [(false, Expr.lit (Lit.str "p")),
           (false, Expr.call rewrittenCallee
             [(false, Expr.lit (Lit.str "Q"))])])]
    ∧ transformProgram fsPQ (some "/w")
        [Stmt.exprStmt (Expr.call (Expr.ident "includeBytes")
          [(false, Expr.lit (Lit.str "p")),
           (false, Expr.call rewrittenCallee
             [(false, Expr.lit (Lit.str "Q"))])])]
      = Except.error TransformError.fileNotFound :=
  ⟨rfl, rfl⟩

/-- C8 (amended): re-running the transform on the output of a successful
first run is a no-op whenever that output no longer contains the bare marker
identifier — in particular whenever every marker occurrence was actually
rewritten, since a rewritten call's callee is the member expression
`env.latin1_string_to_uint8array`, which the callee hook does not match. -/
theorem c8_second_run_noop (fs : FSys) (cwd : Option String)
    (prog out : List Stmt)
    (hrun : transformProgram fs cwd prog = Except.ok out)
    (hmf : progContainsMarker out = false) :
    transformProgram fs cwd out = Except.ok out :=
  transform_markerFree fs cwd out hmf

/-- C8 witness: a one-marker program is rewritten by the first run and passes
through the second run unchanged. -/
theorem c8_second_run_noop_witness :
    transformProgram fsPQ (some "/w")
        [Stmt.exprStmt (Expr.call rewrittenCallee
          [(false, Expr.lit (Lit.str "P"))])]
      = Except.ok
        [Stmt.exprStmt (Expr.call rewrittenCallee
          [(false, Expr.lit (Lit.str "P"))])] :=
  c8_second_run_noop fsPQ (some "/w")
    [Stmt.exprStmt (Expr.call (Expr.ident "includeBytes")
      [(false, Expr.lit (Lit.str "p"))])]
    [Stmt.exprStmt (Expr.call rewrittenCallee
      [(false, Expr.lit (Lit.str "P"))])]
    rfl rfl

/-- C9: when a flagged marker call with one or more arguments is successfully
substituted, only the first argument's string literal is overwritten with the
file content (its spread marker is kept); every argument beyond the first is
returned exactly as it stood. -/
theorem c9_first_argument_only (fs : FSys) (w p contents : String)
    (c : Expr) (s : Bool) (rest : List (Bool × Expr))
    (hex : fs.pathExists (joinPath w p) = true)
    (hread : fs.readToString (joinPath w p) = some contents) :
    exprPostHook fs (some w) true
        (Expr.call c ((s, Expr.lit (Lit.str p)) :: rest))
      = ⟨Expr.call rewrittenCallee
          ((s, Expr.lit (Lit.str contents)) :: rest), false, none, 1⟩ := by
  simp [exprPostHook, substituteCall, hex, hread]

/-- C9 witness: a two-argument marker call keeps its second argument. -/
theorem c9_first_argument_only_witness :
    exprPostHook fsPQ (some "/w") true
        (Expr.call (Expr.ident markerName)
          ((true, Expr.lit (Lit.str "p")) :: [(false, Expr.ident "x")]))
      = ⟨Expr.call rewrittenCallee
          ((true, Expr.lit (Lit.str "P")) :: [(false, Expr.ident "x")]),
          false, none, 1⟩ :=
  c9_first_argument_only fsPQ "/w" "p" "P" (Expr.ident markerName) true
    [(false, Expr.ident "x")] rfl rfl

/-- C10: when one traversal never reaches the substitution branch (no call
expression is processed while the flag is set), the transform succeeds and
returns the program unchanged even with no working directory in the build
context: the working directory is only consulted inside the substitution
branch of an actually flagged call. -/
theorem c10_cwd_only_for_substitution (fs : FSys) (prog : List Stmt)
    (h : (visitStmts fs none prog false).cnt = 0) :
    transformProgram fs none prog = Except.ok prog := by
  simp [transformProgram, visitStmts_cnt0 fs none prog false h]

/-- C10 witness: a program with an ordinary (non-marker) call transforms
successfully without any working directory. -/
theorem c10_cwd_only_for_substitution_witness :
    transformProgram fsEmpty none
        [Stmt.exprStmt (Expr.call (Expr.ident "f")
          [(false, Expr.lit (Lit.str "x"))])]
      = Except.ok
        [Stmt.exprStmt (Expr.call (Expr.ident "f")
          [(false, Expr.lit (Lit.str "x"))])] :=
  c10_cwd_only_for_substitution fsEmpty
    [Stmt.exprStmt (Expr.call (Expr.ident "f")
      [(false, Expr.lit (Lit.str "x"))])]
    rfl
